import Mathlib

/-!
Shallow embedding of `src/dj_stat_ratio5.py`: speaker-role classification for
radio broadcast transcripts.  Durations and ratios are modelled as exact
rationals (the source computes with Python floats; at every comparison the
claims touch, the float and exact values agree).  A pandas DataFrame row is
modelled as a `Row`; the frame object itself — whose column set the source
extends in place — is modelled as a `Frame`.
-/

namespace Radio

/-- One input record: the columns `Type`, `Speakers`, `Duration` of the input
frame.  `speakers := none` models an absent/NaN (non-string) field
(`get_dominant_speaker` returns `None` for those, line 7 of the source). -/
structure Row where
  typ : String
  speakers : Option String
  duration : ℚ
  deriving DecidableEq

/-- One step of `re.search(r"(SPEAKER_\d+)", s)`: does the pattern match at the
head of `cs`?  On success returns the matched substring, i.e. `SPEAKER_`
followed by the maximal run of digits (at least one, `\d+` is greedy). -/
def matchPatternAt : List Char → Option (List Char)
  | 'S' :: 'P' :: 'E' :: 'A' :: 'K' :: 'E' :: 'R' :: '_' :: rest =>
    match rest.takeWhile Char.isDigit with
    | [] => none
    | ds => some ('S' :: 'P' :: 'E' :: 'A' :: 'K' :: 'E' :: 'R' :: '_' :: ds)
  | _ => none

/-- Model of `re.search`: scan positions left to right, return the first match. -/
def searchSpeaker : List Char → Option (List Char)
  | [] => none
  | c :: cs =>
    match matchPatternAt (c :: cs) with
    | some m => some m
    | none => searchSpeaker cs

/-- Source lines 6–9: `None` for a non-string field, otherwise the first
`SPEAKER_\d+` match (or `None` when there is none). -/
def get_dominant_speaker : Option String → Option String
  | none => none
  | some s => (searchSpeaker s.data).map (fun l => String.mk l)

/-- Source lines 20–23: the value the `Dominant_Speaker` column gets for one
row — extraction for `speech` rows, `None` otherwise. -/
def rowLabel (r : Row) : Option String :=
  if r.typ = "speech" then get_dominant_speaker r.speakers else none

/-- The `Dominant_Speaker` column the source assigns onto the frame. -/
def dominantColumn (rows : List Row) : List (Option String) :=
  rows.map rowLabel

/-- One dict update `duration_stats[spk] = duration_stats.get(spk, 0.0) + d`, preserving the
Python-dict insertion order: an existing key keeps its place, a new key is
appended at the end. -/
def updateStats : List (String × ℚ) → String → ℚ → List (String × ℚ)
  | [], spk, d => [(spk, d)]
  | (k, v) :: rest, spk, d =>
    if k = spk then (k, v + d) :: rest else (k, v) :: updateStats rest spk d

/-- The accumulation loop of source lines 27–31, folded over the rows. -/
def duration_statsAux : List (String × ℚ) → List Row → List (String × ℚ)
  | st, [] => st
  | st, r :: rest =>
    duration_statsAux
      (if r.typ = "speech" then
        match rowLabel r with
        | some spk => updateStats st spk r.duration
        | none => st
      else st) rest

/-- Source lines 26–31: total speaking duration per extracted label, in
first-seen (insertion) order. -/
def duration_stats (rows : List Row) : List (String × ℚ) :=
  duration_statsAux [] rows

/-- Stable insertion of a keyed value into a list sorted descending by value:
the new element goes before the first strictly smaller one and after all
greater-or-equal ones, which is exactly the stability Python's
`sorted(..., key=lambda x: x[1], reverse=True)` guarantees. -/
def insertDesc {α : Type} [LinearOrder α] (x : String × α) :
    List (String × α) → List (String × α)
  | [] => [x]
  | y :: ys => if y.2 ≤ x.2 then x :: y :: ys else y :: insertDesc x ys

/-- Stable sort, descending by the second component (source lines 35, 68). -/
def sortDesc {α : Type} [LinearOrder α] (l : List (String × α)) :
    List (String × α) :=
  l.foldr insertDesc []

/-- Source line 35: the duration table sorted descending by duration. -/
def sorted_durations (rows : List Row) : List (String × ℚ) :=
  sortDesc (duration_stats rows)

/-- Source lines 36–37: the DJ (host) entry, when the table is non-empty. -/
def djEntry (rows : List Row) : Option (String × ℚ) :=
  (sorted_durations rows).head?

/-- The neighbourhood offsets of source line 57, in scan order. -/
def offsets : List ℤ := [-3, -2, -1, 1, 2, 3]

/-- The row `Type` at a position (`""` when out of bounds). -/
def typeAt (rows : List Row) (idx : ℕ) : String :=
  ((rows.get? idx).map Row.typ).getD ""

/-- The `Dominant_Speaker` column entry at a position (`None` out of bounds,
matching that the source never reads out of bounds thanks to line 59). -/
def labelAt (rows : List Row) (idx : ℕ) : Option String :=
  (dominantColumn rows).getD idx none

/-- Source lines 57–63, inner loop: is the DJ's label within the clipped
6-slot neighbourhood of `idx`?  `List.any` short-circuits exactly like the
`break` after the first hit. -/
def hasDJNeighbor (col : List (Option String)) (dj_id : String) (idx : ℕ) : Bool :=
  offsets.any (fun offset =>
    decide (0 ≤ (idx : ℤ) + offset) && decide ((idx : ℤ) + offset < (col.length : ℤ)) &&
      decide (col.getD ((idx : ℤ) + offset).toNat none = some dj_id))

/-- Source lines 41–46: the positions of the speech rows labelled `spk`. -/
def speaker_indices (rows : List Row) (spk : String) : List ℕ :=
  (List.range rows.length).filter (fun idx =>
    decide (typeAt rows idx = "speech") && decide (labelAt rows idx = some spk))

/-- Source lines 54–63, outer loop: one increment per occurrence with a DJ
neighbour (the `break` caps each occurrence's contribution at one). -/
def countInteractions (col : List (Option String)) (dj_id : String)
    (indices : List ℕ) : ℕ :=
  indices.foldl (fun count idx => if hasDJNeighbor col dj_id idx then count + 1 else count) 0

/-- Source lines 48–64: interaction count per label, keys in the insertion
order of the duration table; the DJ's own count is pinned to 0 (line 51). -/
def interaction_counts (rows : List Row) (dj_id : String) : List (String × ℕ) :=
  (duration_stats rows).map (fun p =>
    (p.1,
      if p.1 = dj_id then 0
      else countInteractions (dominantColumn rows) dj_id (speaker_indices rows p.1)))

/-- Source line 76. -/
def MIN_ABSOLUTE_THRESHOLD : ℚ := 12

/-- Source line 79: the literal `0.2`, an exact `1/5` here.  The binary-float
rounding of `0.2` never changes a comparison against an integer interaction
count in the reachable range, so the rational embedding is faithful. -/
def RELATIVE_RATIO : ℚ := 1 / 5

/-- Source line 82. -/
def FREE_PASS_THRESHOLD : ℕ := 20

/-- Source line 84: `max(MIN_ABSOLUTE_THRESHOLD, top_guest_cnt * RELATIVE_RATIO)`. -/
def cutoff_value (top_guest_cnt : ℕ) : ℚ :=
  max MIN_ABSOLUTE_THRESHOLD ((top_guest_cnt : ℚ) * RELATIVE_RATIO)

/-- Source line 67: the non-DJ entries of the interaction table. -/
def candidates (rows : List Row) (dj_id : String) : List (String × ℕ) :=
  (interaction_counts rows dj_id).filter (fun p => decide (p.1 ≠ dj_id))

/-- Source line 68: candidates sorted descending by count (stable). -/
def candidatesSorted (rows : List Row) (dj_id : String) : List (String × ℕ) :=
  sortDesc (candidates rows dj_id)

/-- Source lines 90–99: the guest test for one candidate, given the top
candidate's count. -/
def is_guest (cnt top_guest_cnt : ℕ) : Bool :=
  decide (FREE_PASS_THRESHOLD ≤ cnt) || decide (cutoff_value top_guest_cnt ≤ (cnt : ℚ))

/-- Source lines 70–105: the guest list, in sorted-candidate order; empty when
there is no candidate. -/
def guest_list (rows : List Row) (dj_id : String) : List String :=
  match candidatesSorted rows dj_id with
  | [] => []
  | top :: _ =>
    (candidatesSorted rows dj_id).filterMap
      (fun p => if is_guest p.2 top.2 then some p.1 else none)

/-- One output record (source lines 120–126).  `Ratio_to_DJ` holds the numeric
percentage the source formats as `f"{...:.1f}%"`. -/
structure ResultRow where
  Speaker : String
  Role : String
  Total_Duration : ℚ
  Ratio_to_DJ : ℚ
  Interaction_Count : ℕ
  deriving DecidableEq

/-- Model of `dict.get(spk, 0)` on an association list (source line 118). -/
def getCount : List (String × ℕ) → String → ℕ
  | [], _ => 0
  | (k, v) :: rest, spk => if k = spk then v else getCount rest spk

/-- Python's `round(q, 2)` on the exact value. -/
def round2 (q : ℚ) : ℚ := ((round (q * 100) : ℤ) : ℚ) / 100

/-- Source lines 110–126: the record built for one `(speaker, duration)` entry
of the sorted duration table. -/
def mkResult (dj_id : String) (dj_duration : ℚ) (gl : List String)
    (ics : List (String × ℕ)) (p : String × ℚ) : ResultRow :=
  { Speaker := p.1
    Role := if p.1 = dj_id then "DJ" else if p.1 ∈ gl then "GUEST" else "AD_SPEAKER"
    Total_Duration := round2 p.2
    Ratio_to_DJ := if 0 < dj_duration then p.2 / dj_duration * 100 else 0
    Interaction_Count := getCount ics p.1 }

/-- Source lines 11–128, the whole classification: empty result when the
duration table is empty (line 33), otherwise one record per speaker in
duration-descending order. -/
def calculate_stats_multi_guest (rows : List Row) : List ResultRow :=
  match sorted_durations rows with
  | [] => []
  | hd :: rest =>
    (hd :: rest).map
      (mkResult hd.1 hd.2 (guest_list rows hd.1) (interaction_counts rows hd.1))

/-- The state of the pandas frame object: its original rows and, when present,
its `Dominant_Speaker` column. -/
structure Frame where
  rows : List Row
  dominantCol : Option (List (Option String))
  deriving DecidableEq

/-- A call `calculate_stats_multi_guest(df)` as seen from the caller: the
state of `df` after the call (line 20 assigns the `Dominant_Speaker` column
onto it in place) together with the returned result table. -/
def calculate_stats_call (df : Frame) : Frame × List ResultRow :=
  ({ rows := df.rows, dominantCol := some (dominantColumn df.rows) },
    calculate_stats_multi_guest df.rows)

/-- The DJ's total duration (0 when there is no DJ). -/
def hostDuration (rows : List Row) : ℚ :=
  ((djEntry rows).map Prod.snd).getD 0

/-- The end-to-end scenario of the spec: 10 speech segments, labels
A,A,B,A,C,A,B,A,A,A with A := SPEAKER_00, B := SPEAKER_01, C := SPEAKER_02,
durations 5,5,1,5,1,5,1,5,5,5. -/
def exRows : List Row :=
  [⟨"speech", some "SPEAKER_00", 5⟩, ⟨"speech", some "SPEAKER_00", 5⟩,
   ⟨"speech", some "SPEAKER_01", 1⟩, ⟨"speech", some "SPEAKER_00", 5⟩,
   ⟨"speech", some "SPEAKER_02", 1⟩, ⟨"speech", some "SPEAKER_00", 5⟩,
   ⟨"speech", some "SPEAKER_01", 1⟩, ⟨"speech", some "SPEAKER_00", 5⟩,
   ⟨"speech", some "SPEAKER_00", 5⟩, ⟨"speech", some "SPEAKER_00", 5⟩]

/-! ### Properties of the stable descending sort -/

theorem insertDesc_perm {α : Type} [LinearOrder α] (x : String × α)
    (l : List (String × α)) : (insertDesc x l).Perm (x :: l) := by
  induction l with
  | nil => exact List.Perm.refl _
  | cons y ys ih =>
    by_cases h : y.2 ≤ x.2
    · simp [insertDesc, h]
    · simp only [insertDesc, if_neg h]
      exact (ih.cons y).trans (List.Perm.swap x y ys)

theorem sortDesc_perm {α : Type} [LinearOrder α] (l : List (String × α)) :
    (sortDesc l).Perm l := by
  induction l with
  | nil => exact List.Perm.refl _
  | cons a l ih =>
    exact (insertDesc_perm a (sortDesc l)).trans (ih.cons a)

theorem insertDesc_pairwise {α : Type} [LinearOrder α] (x : String × α)
    {l : List (String × α)} (h : l.Pairwise (fun a b => b.2 ≤ a.2)) :
    (insertDesc x l).Pairwise (fun a b => b.2 ≤ a.2) := by
  induction l with
  | nil => simp [insertDesc]
  | cons y ys ih =>
    rcases List.pairwise_cons.1 h with ⟨hy, hys⟩
    by_cases hc : y.2 ≤ x.2
    · simp only [insertDesc, if_pos hc]
      refine List.Pairwise.cons ?_ h
      intro b hb
      rcases List.mem_cons.1 hb with rfl | hb'
      · exact hc
      · exact le_trans (hy b hb') hc
    · simp only [insertDesc, if_neg hc]
      refine List.Pairwise.cons ?_ (ih hys)
      intro b hb
      rcases List.mem_cons.1 ((insertDesc_perm x ys).mem_iff.1 hb) with rfl | hb'
      · exact le_of_lt (lt_of_not_le hc)
      · exact hy b hb'

theorem sortDesc_pairwise {α : Type} [LinearOrder α] (l : List (String × α)) :
    (sortDesc l).Pairwise (fun a b => b.2 ≤ a.2) := by
  induction l with
  | nil => simp [sortDesc]
  | cons a l ih => exact insertDesc_pairwise a ih

/-- The head of the stable descending sort is the first element of the
original list attaining the maximal value: it is an element, it dominates
every element, and everything before it in the original list is strictly
smaller. -/
theorem sortDesc_head_first_max {α : Type} [LinearOrder α] :
    ∀ (l : List (String × α)) (m : String × α), (sortDesc l).head? = some m →
      (∃ pre post, l = pre ++ m :: post ∧ ∀ y ∈ pre, y.2 < m.2) ∧
        ∀ y ∈ l, y.2 ≤ m.2 := by
  intro l
  induction l with
  | nil => intro m h; simp [sortDesc] at h
  | cons a l ih =>
    intro m h
    have hsd : sortDesc (a :: l) = insertDesc a (sortDesc l) := rfl
    cases hs : sortDesc l with
    | nil =>
      have hl : l = [] := by
        have hp := sortDesc_perm l
        rw [hs] at hp
        exact hp.symm.eq_nil
      rw [hsd, hs] at h
      simp only [insertDesc, List.head?_cons, Option.some.injEq] at h
      subst h
      refine ⟨⟨[], l, rfl, by simp⟩, ?_⟩
      intro y hy
      rcases List.mem_cons.1 hy with rfl | hy'
      · exact le_refl _
      · rw [hl] at hy'; cases hy'
    | cons m' t =>
      rw [hsd, hs] at h
      have hm' := ih m' (by rw [hs]; rfl)
      by_cases hc : m'.2 ≤ a.2
      · simp only [insertDesc, if_pos hc, List.head?_cons, Option.some.injEq] at h
        subst h
        refine ⟨⟨[], l, rfl, by simp⟩, ?_⟩
        intro y hy
        rcases List.mem_cons.1 hy with rfl | hy'
        · exact le_refl _
        · exact le_trans (hm'.2 y hy') hc
      · simp only [insertDesc, if_neg hc, List.head?_cons, Option.some.injEq] at h
        subst h
        obtain ⟨⟨pre, post, hdec, hpre⟩, hmax⟩ := hm'
        refine ⟨⟨a :: pre, post, by rw [hdec]; rfl, ?_⟩, ?_⟩
        · intro y hy
          rcases List.mem_cons.1 hy with rfl | hy'
          · exact lt_of_not_le hc
          · exact hpre y hy'
        · intro y hy
          rcases List.mem_cons.1 hy with rfl | hy'
          · exact le_of_lt (lt_of_not_le hc)
          · exact hmax y hy'

/-! ### Keys of the accumulated tables -/

theorem updateStats_map_fst (st : List (String × ℚ)) (spk : String) (d : ℚ) :
    (updateStats st spk d).map Prod.fst =
      if spk ∈ st.map Prod.fst then st.map Prod.fst
      else st.map Prod.fst ++ [spk] := by
  induction st with
  | nil => simp [updateStats]
  | cons p rest ih =>
    obtain ⟨k, v⟩ := p
    by_cases h : k = spk
    · subst h
      simp [updateStats]
    · have hne : ¬spk = k := fun hk => h hk.symm
      by_cases hm : spk ∈ rest.map Prod.fst
      · simp [updateStats, h, ih, hm, hne]
      · simp [updateStats, h, ih, hm, hne]

theorem mem_fst_updateStats {st : List (String × ℚ)} {spk : String} {d : ℚ}
    {k : String} :
    k ∈ (updateStats st spk d).map Prod.fst ↔ k ∈ st.map Prod.fst ∨ k = spk := by
  rw [updateStats_map_fst]
  by_cases h : spk ∈ st.map Prod.fst
  · rw [if_pos h]
    constructor
    · exact Or.inl
    · rintro (hk | rfl)
      · exact hk
      · exact h
  · rw [if_neg h]
    simp

theorem updateStats_nodup {st : List (String × ℚ)} {spk : String} {d : ℚ}
    (h : (st.map Prod.fst).Nodup) :
    ((updateStats st spk d).map Prod.fst).Nodup := by
  rw [updateStats_map_fst]
  by_cases hm : spk ∈ st.map Prod.fst
  · rwa [if_pos hm]
  · rw [if_neg hm]
    exact List.Nodup.append h (List.nodup_singleton spk)
      (by simpa [List.disjoint_singleton] using hm)

theorem duration_statsAux_nodup :
    ∀ (l : List Row) (st : List (String × ℚ)),
      (st.map Prod.fst).Nodup → ((duration_statsAux st l).map Prod.fst).Nodup := by
  intro l
  induction l with
  | nil => intro st h; exact h
  | cons r rest ih =>
    intro st h
    show ((duration_statsAux _ rest).map Prod.fst).Nodup
    apply ih
    by_cases ht : r.typ = "speech"
    · rw [if_pos ht]
      cases rowLabel r with
      | none => exact h
      | some spk => exact updateStats_nodup h
    · rwa [if_neg ht]

theorem duration_stats_nodup (rows : List Row) :
    ((duration_stats rows).map Prod.fst).Nodup :=
  duration_statsAux_nodup rows [] List.nodup_nil

theorem sorted_durations_nodup (rows : List Row) :
    ((sorted_durations rows).map Prod.fst).Nodup :=
  (((sortDesc_perm (duration_stats rows)).map Prod.fst).nodup_iff).2
    (duration_stats_nodup rows)

theorem mem_fst_duration_statsAux :
    ∀ (l : List Row) (st : List (String × ℚ)) (k : String),
      k ∈ (duration_statsAux st l).map Prod.fst ↔
        k ∈ st.map Prod.fst ∨ ∃ r ∈ l, r.typ = "speech" ∧ rowLabel r = some k := by
  intro l
  induction l with
  | nil => intro st k; simp [duration_statsAux]
  | cons r rest ih =>
    intro st k
    show k ∈ (duration_statsAux _ rest).map Prod.fst ↔ _
    rw [ih]
    by_cases ht : r.typ = "speech"
    · rw [if_pos ht]
      cases hl : rowLabel r with
      | none =>
        simp only [List.mem_cons]
        constructor
        · rintro (hk | ⟨r', hr', htr', hlr'⟩)
          · exact Or.inl hk
          · exact Or.inr ⟨r', Or.inr hr', htr', hlr'⟩
        · rintro (hk | ⟨r', hr', htr', hlr'⟩)
          · exact Or.inl hk
          · rcases hr' with rfl | hr'
            · rw [hl] at hlr'; cases hlr'
            · exact Or.inr ⟨r', hr', htr', hlr'⟩
      | some spk =>
        rw [mem_fst_updateStats]
        simp only [List.mem_cons]
        constructor
        · rintro ((hk | rfl) | ⟨r', hr', htr', hlr'⟩)
          · exact Or.inl hk
          · exact Or.inr ⟨r, Or.inl rfl, ht, hl⟩
          · exact Or.inr ⟨r', Or.inr hr', htr', hlr'⟩
        · rintro (hk | ⟨r', hr', htr', hlr'⟩)
          · exact Or.inl (Or.inl hk)
          · rcases hr' with rfl | hr'
            · rw [hl] at hlr'
              cases hlr'
              exact Or.inl (Or.inr rfl)
            · exact Or.inr ⟨r', hr', htr', hlr'⟩
    · rw [if_neg ht]
      simp only [List.mem_cons]
      constructor
      · rintro (hk | ⟨r', hr', htr', hlr'⟩)
        · exact Or.inl hk
        · exact Or.inr ⟨r', Or.inr hr', htr', hlr'⟩
      · rintro (hk | ⟨r', hr', htr', hlr'⟩)
        · exact Or.inl hk
        · rcases hr' with rfl | hr'
          · exact absurd htr' ht
          · exact Or.inr ⟨r', hr', htr', hlr'⟩

theorem mem_fst_duration_stats (rows : List Row) (k : String) :
    k ∈ (duration_stats rows).map Prod.fst ↔
      ∃ r ∈ rows, r.typ = "speech" ∧ rowLabel r = some k := by
  rw [duration_stats, mem_fst_duration_statsAux]
  simp

/-! ### `getCount` (i.e. `dict.get(spk, 0)`) -/

theorem getCount_map_graph (g : String → ℕ) :
    ∀ (l : List (String × ℚ)) (spk : String),
      getCount (l.map (fun p => (p.1, g p.1))) spk =
        if spk ∈ l.map Prod.fst then g spk else 0 := by
  intro l
  induction l with
  | nil => intro spk; simp [getCount]
  | cons p rest ih =>
    intro spk
    by_cases h : p.1 = spk
    · subst h
      simp [getCount, ih]
    · have hne : ¬spk = p.1 := fun hk => h hk.symm
      rw [List.map_cons, getCount, if_neg h, ih, List.map_cons]
      by_cases hm : spk ∈ rest.map Prod.fst
      · rw [if_pos hm, if_pos (List.mem_cons_of_mem _ hm)]
      · rw [if_neg hm, if_neg (by simp [hne, hm])]

theorem getCount_pair_mem :
    ∀ (l : List (String × ℕ)) (spk : String), spk ∈ l.map Prod.fst →
      (spk, getCount l spk) ∈ l := by
  intro l
  induction l with
  | nil => intro spk h; cases h
  | cons p rest ih =>
    intro spk h
    obtain ⟨k, v⟩ := p
    by_cases hk : k = spk
    · subst hk
      simp [getCount]
    · rw [getCount, if_neg hk]
      refine List.mem_cons_of_mem _ (ih spk ?_)
      rw [List.map_cons] at h
      rcases List.mem_cons.1 h with rfl | h'
      · exact absurd rfl hk
      · exact h'

theorem getCount_eq_of_mem_nodup :
    ∀ (l : List (String × ℕ)) (spk : String) (c : ℕ),
      (l.map Prod.fst).Nodup → (spk, c) ∈ l → getCount l spk = c := by
  intro l
  induction l with
  | nil => intro spk c _ h; cases h
  | cons p rest ih =>
    intro spk c hnd hm
    obtain ⟨k, v⟩ := p
    rw [List.map_cons] at hnd
    rcases List.nodup_cons.1 hnd with ⟨hk, hrest⟩
    rcases List.mem_cons.1 hm with heq | hm'
    · cases heq
      simp [getCount]
    · have hne : k ≠ spk := by
        rintro rfl
        exact hk (List.mem_map.2 ⟨(k, c), hm', rfl⟩)
      rw [getCount, if_neg hne]
      exact ih spk c hrest hm'

theorem getCount_interaction (rows : List Row) (dj_id spk : String) :
    getCount (interaction_counts rows dj_id) spk =
      if spk ∈ (duration_stats rows).map Prod.fst then
        (if spk = dj_id then 0
        else countInteractions (dominantColumn rows) dj_id (speaker_indices rows spk))
      else 0 :=
  getCount_map_graph
    (fun s => if s = dj_id then 0
      else countInteractions (dominantColumn rows) dj_id (speaker_indices rows s))
    (duration_stats rows) spk

theorem getCount_interaction_dj (rows : List Row) (dj_id : String) :
    getCount (interaction_counts rows dj_id) dj_id = 0 := by
  rw [getCount_interaction]
  split
  · rw [if_pos rfl]
  · rfl

theorem interaction_counts_map_fst (rows : List Row) (dj_id : String) :
    (interaction_counts rows dj_id).map Prod.fst =
      (duration_stats rows).map Prod.fst := by
  rw [interaction_counts, List.map_map]
  rfl

/-! ### Role of one result record -/

theorem mkResult_role_dj_iff (dj_id : String) (d : ℚ) (gl : List String)
    (ics : List (String × ℕ)) (p : String × ℚ) :
    (mkResult dj_id d gl ics p).Role = "DJ" ↔ p.1 = dj_id := by
  unfold mkResult
  dsimp only
  by_cases h : p.1 = dj_id
  · rw [if_pos h]
    exact iff_of_true rfl h
  · rw [if_neg h]
    by_cases hg : p.1 ∈ gl
    · rw [if_pos hg]
      exact iff_of_false (by decide) h
    · rw [if_neg hg]
      exact iff_of_false (by decide) h

theorem mkResult_role_guest_iff (dj_id : String) (d : ℚ) (gl : List String)
    (ics : List (String × ℕ)) (p : String × ℚ) (h : p.1 ≠ dj_id) :
    (mkResult dj_id d gl ics p).Role = "GUEST" ↔ p.1 ∈ gl := by
  unfold mkResult
  dsimp only
  rw [if_neg h]
  by_cases hg : p.1 ∈ gl
  · rw [if_pos hg]
    exact iff_of_true rfl hg
  · rw [if_neg hg]
    exact iff_of_false (by decide) hg

theorem mkResult_role_cases (dj_id : String) (d : ℚ) (gl : List String)
    (ics : List (String × ℕ)) (p : String × ℚ) (h : p.1 ≠ dj_id) :
    (mkResult dj_id d gl ics p).Role = "GUEST" ∨
      (mkResult dj_id d gl ics p).Role = "AD_SPEAKER" := by
  unfold mkResult
  dsimp only
  rw [if_neg h]
  by_cases hg : p.1 ∈ gl
  · exact Or.inl (by rw [if_pos hg])
  · exact Or.inr (by rw [if_neg hg])

theorem countP_fst_le_one {β : Type} (k : String) :
    ∀ (l : List (String × β)), (l.map Prod.fst).Nodup →
      l.countP (fun p => decide (p.1 = k)) ≤ 1 := by
  intro l
  induction l with
  | nil => intro _; simp
  | cons p rest ih =>
    intro h
    rw [List.map_cons] at h
    rcases List.nodup_cons.1 h with ⟨hp, hrest⟩
    rw [List.countP_cons]
    by_cases hk : p.1 = k
    · have h0 : rest.countP (fun q => decide (q.1 = k)) = 0 := by
        rw [List.countP_eq_zero]
        intro q hq
        simp only [decide_eq_true_eq]
        intro hq1
        exact hp (by rw [hk, ← hq1]; exact List.mem_map.2 ⟨q, hq, rfl⟩)
      simp [hk, h0]
    · simp only [hk, decide_eq_true_eq, if_neg hk]
      simpa using ih hrest

/-- C6: the output has at most one record with role `DJ`, and the DJ record's
interaction count is 0 (the source pins the DJ's count at line 51 and assigns
role `DJ` exactly to the selected `dj_id`, which occurs once in the duration
table). -/
theorem at_most_one_dj_host_zero (rows : List Row) :
    (calculate_stats_multi_guest rows).countP (fun rec => decide (rec.Role = "DJ")) ≤ 1 ∧
      ∀ rec ∈ calculate_stats_multi_guest rows,
        rec.Role = "DJ" → rec.Interaction_Count = 0 := by
  unfold calculate_stats_multi_guest
  cases hs : sorted_durations rows with
  | nil => exact ⟨by simp, by simp⟩
  | cons hd tail =>
    constructor
    · rw [List.countP_map]
      have hfun : ((fun rec => decide (rec.Role = "DJ")) ∘
          (mkResult hd.1 hd.2 (guest_list rows hd.1) (interaction_counts rows hd.1))) =
          (fun p : String × ℚ => decide (p.1 = hd.1)) := by
        funext p
        exact decide_eq_decide.2
          (mkResult_role_dj_iff hd.1 hd.2 (guest_list rows hd.1)
            (interaction_counts rows hd.1) p)
      rw [hfun]
      apply countP_fst_le_one
      have hnd := sorted_durations_nodup rows
      rw [hs] at hnd
      exact hnd
    · intro rec hrec hrole
      obtain ⟨p, hp, rfl⟩ := List.mem_map.1 hrec
      have hp1 : p.1 = hd.1 :=
        (mkResult_role_dj_iff hd.1 hd.2 _ _ p).1 hrole
      show getCount (interaction_counts rows hd.1) p.1 = 0
      rw [hp1]
      exact getCount_interaction_dj rows hd.1

/-- C10: every record's numeric ratio is at most 100, and the DJ's record has
ratio exactly 100 whenever the DJ's duration is positive (the DJ has the
maximal total duration, and a non-positive DJ duration short-circuits the
ratio to 0 at line 117). -/
theorem ratio_le_hundred (rows : List Row) (rec : ResultRow)
    (hrec : rec ∈ calculate_stats_multi_guest rows) :
    rec.Ratio_to_DJ ≤ 100 ∧
      (rec.Role = "DJ" → 0 < hostDuration rows → rec.Ratio_to_DJ = 100) := by
  unfold calculate_stats_multi_guest at hrec
  cases hs : sorted_durations rows with
  | nil => rw [hs] at hrec; cases hrec
  | cons hd tail =>
    rw [hs] at hrec
    obtain ⟨p, hp, rfl⟩ := List.mem_map.1 hrec
    have hhead : (sortDesc (duration_stats rows)).head? = some hd := by
      have : sortDesc (duration_stats rows) = hd :: tail := hs
      rw [this]
      rfl
    obtain ⟨_, hmax⟩ := sortDesc_head_first_max (duration_stats rows) hd hhead
    have hpmem : p ∈ duration_stats rows := by
      refine (sortDesc_perm (duration_stats rows)).mem_iff.1 ?_
      have : sortDesc (duration_stats rows) = hd :: tail := hs
      rw [this]
      exact hp
    have hple : p.2 ≤ hd.2 := hmax p hpmem
    have hhost : hostDuration rows = hd.2 := by
      unfold hostDuration djEntry
      rw [hs]
      rfl
    constructor
    · show (if 0 < hd.2 then p.2 / hd.2 * 100 else 0) ≤ 100
      by_cases hpos : 0 < hd.2
      · rw [if_pos hpos]
        have h1 : p.2 / hd.2 ≤ 1 := (div_le_one hpos).2 hple
        calc p.2 / hd.2 * 100 ≤ 1 * 100 :=
              mul_le_mul_of_nonneg_right h1 (by norm_num)
          _ = 100 := one_mul 100
      · rw [if_neg hpos]
        norm_num
    · intro hrole hpos
      rw [hhost] at hpos
      have hp1 : p.1 = hd.1 := (mkResult_role_dj_iff hd.1 hd.2 _ _ p).1 hrole
      have hpeq : p = hd := by
        have hnd := sorted_durations_nodup rows
        rw [hs, List.map_cons] at hnd
        rcases List.nodup_cons.1 hnd with ⟨hh, _⟩
        rcases List.mem_cons.1 hp with heq | hmem
        · exact heq
        · exact absurd (by rw [← hp1]; exact List.mem_map.2 ⟨p, hmem, rfl⟩) hh
      show (if 0 < hd.2 then p.2 / hd.2 * 100 else 0) = 100
      rw [hpeq, if_pos hpos, div_self (ne_of_gt hpos), one_mul]

unseal Rat.add Rat.mul Rat.inv Rat.sub in
/-- C10 witness: the theorem applied to the concrete 10-segment run, at the
DJ's own record. -/
theorem ratio_le_hundred_witness :
    ({ Speaker := "SPEAKER_00", Role := "DJ", Total_Duration := 35,
       Ratio_to_DJ := 100, Interaction_Count := 0 } : ResultRow).Ratio_to_DJ ≤ 100 ∧
      (({ Speaker := "SPEAKER_00", Role := "DJ", Total_Duration := 35,
          Ratio_to_DJ := 100, Interaction_Count := 0 } : ResultRow).Role = "DJ" →
        0 < hostDuration exRows →
        ({ Speaker := "SPEAKER_00", Role := "DJ", Total_Duration := 35,
           Ratio_to_DJ := 100, Interaction_Count := 0 } : ResultRow).Ratio_to_DJ = 100) :=
  ratio_le_hundred exRows _ (by decide)

/-- C9: the selected host entry is an element of the duration table with the
maximal total duration, and among ties it is the first one in
insertion (first-seen) order: `find?` scans the table in that order. -/
theorem host_is_first_max (rows : List Row) (dj_id : String) (d : ℚ)
    (hdj : djEntry rows = some (dj_id, d)) :
    (∀ y ∈ duration_stats rows, y.2 ≤ d) ∧
      (duration_stats rows).find? (fun y => decide (d ≤ y.2)) = some (dj_id, d) := by
  obtain ⟨⟨pre, post, hdec, hpre⟩, hmax⟩ :=
    sortDesc_head_first_max (duration_stats rows) (dj_id, d) hdj
  refine ⟨hmax, ?_⟩
  rw [hdec, List.find?_append]
  have hnone : pre.find? (fun y => decide (d ≤ y.2)) = none := by
    rw [List.find?_eq_none]
    intro y hy
    simp only [decide_eq_true_eq]
    exact not_le.2 (hpre y hy)
  rw [hnone, Option.none_or]
  rw [List.find?_cons_of_pos _ (by simp)]

unseal Rat.add Rat.mul Rat.inv Rat.sub in
/-- C9 witness: on the concrete run the host entry is the first (and only)
maximal-duration entry. -/
theorem host_is_first_max_witness :
    (∀ y ∈ duration_stats exRows, y.2 ≤ 35) ∧
      (duration_stats exRows).find? (fun y => decide ((35 : ℚ) ≤ y.2)) =
        some ("SPEAKER_00", 35) :=
  host_is_first_max exRows "SPEAKER_00" 35 (by decide)

/-! ### Duration conservation -/

theorem rowLabel_speech {r : Row} (ht : r.typ = "speech") :
    rowLabel r = get_dominant_speaker r.speakers :=
  if_pos ht

theorem updateStats_snd_sum (st : List (String × ℚ)) (spk : String) (d : ℚ) :
    ((updateStats st spk d).map Prod.snd).sum = (st.map Prod.snd).sum + d := by
  induction st with
  | nil => simp [updateStats]
  | cons p rest ih =>
    obtain ⟨k, v⟩ := p
    by_cases h : k = spk
    · simp only [updateStats, if_pos h, List.map_cons, List.sum_cons]
      ring
    · simp only [updateStats, if_neg h, List.map_cons, List.sum_cons, ih]
      ring

theorem duration_statsAux_snd_sum :
    ∀ (l : List Row) (st : List (String × ℚ)),
      ((duration_statsAux st l).map Prod.snd).sum =
        (st.map Prod.snd).sum +
          (l.map (fun r =>
            if r.typ = "speech" ∧ (get_dominant_speaker r.speakers).isSome
            then r.duration else 0)).sum := by
  intro l
  induction l with
  | nil => intro st; simp [duration_statsAux]
  | cons r rest ih =>
    intro st
    simp only [duration_statsAux, List.map_cons, List.sum_cons]
    rw [ih]
    by_cases ht : r.typ = "speech"
    · rw [if_pos ht]
      cases hl : rowLabel r with
      | some spk =>
        rw [updateStats_snd_sum,
          if_pos ⟨ht, by rw [← rowLabel_speech ht, hl]; rfl⟩]
        ring
      | none =>
        rw [if_neg (fun hc => by
          rw [← rowLabel_speech ht, hl] at hc
          simp at hc)]
        ring
    · rw [if_neg ht, if_neg (fun hc => ht hc.1)]
      ring

/-- C7: the sum of the per-speaker total durations equals the sum of the
durations of the speech segments with an extractable label; other segments
contribute nothing. -/
theorem total_duration_conservation (rows : List Row) :
    ((duration_stats rows).map Prod.snd).sum =
      (rows.map (fun r =>
        if r.typ = "speech" ∧ (get_dominant_speaker r.speakers).isSome
        then r.duration else 0)).sum := by
  rw [duration_stats, duration_statsAux_snd_sum]
  simp

/-! ### Empty input -/

theorem duration_statsAux_no_label :
    ∀ (l : List Row) (st : List (String × ℚ)),
      (∀ r ∈ l, r.typ = "speech" → get_dominant_speaker r.speakers = none) →
      duration_statsAux st l = st := by
  intro l
  induction l with
  | nil => intro st _; rfl
  | cons r rest ih =>
    intro st h
    simp only [duration_statsAux]
    have hif : (if r.typ = "speech" then
        match rowLabel r with
        | some spk => updateStats st spk r.duration
        | none => st
      else st) = st := by
      by_cases ht : r.typ = "speech"
      · rw [if_pos ht, rowLabel_speech ht, h r (List.mem_cons_self r rest) ht]
      · rw [if_neg ht]
    rw [hif]
    exact ih st (fun r' hr' => h r' (List.mem_cons_of_mem r hr'))

/-- C8: when no speech segment yields an extractable label, the duration
table is empty and the pipeline returns the empty result set (source line 33)
instead of failing; no host is selected. -/
theorem empty_result_of_no_label (rows : List Row)
    (h : ∀ r ∈ rows, r.typ = "speech" → get_dominant_speaker r.speakers = none) :
    duration_stats rows = [] ∧ djEntry rows = none ∧
      calculate_stats_multi_guest rows = [] := by
  have hst : duration_stats rows = [] := duration_statsAux_no_label rows [] h
  have hsd : sorted_durations rows = [] := by
    rw [sorted_durations, hst]
    rfl
  refine ⟨hst, ?_, ?_⟩
  · rw [djEntry, hsd]
    rfl
  · rw [calculate_stats_multi_guest, hsd]

/-- C8 witness: a non-speech row carrying a speaker-like string and a speech
row with no extractable pattern produce the empty result. -/
theorem empty_result_of_no_label_witness :
    duration_stats [⟨"music", some "SPEAKER_03", 4⟩, ⟨"speech", some "nobody here", 2⟩] = [] ∧
      djEntry [⟨"music", some "SPEAKER_03", 4⟩, ⟨"speech", some "nobody here", 2⟩] = none ∧
      calculate_stats_multi_guest
        [⟨"music", some "SPEAKER_03", 4⟩, ⟨"speech", some "nobody here", 2⟩] = [] :=
  empty_result_of_no_label
    [⟨"music", some "SPEAKER_03", 4⟩, ⟨"speech", some "nobody here", 2⟩] (by decide)

/-! ### The interaction counter -/

theorem countInteractions_eq_countP (col : List (Option String)) (dj_id : String)
    (l : List ℕ) :
    countInteractions col dj_id l = l.countP (hasDJNeighbor col dj_id) := by
  suffices h : ∀ (l : List ℕ) (n : ℕ),
      l.foldl (fun count idx => if hasDJNeighbor col dj_id idx then count + 1 else count) n =
        n + l.countP (hasDJNeighbor col dj_id) by
    simpa [countInteractions] using h l 0
  intro l
  induction l with
  | nil => intro n; simp
  | cons i rest ih =>
    intro n
    rw [List.foldl_cons, List.countP_cons]
    cases h : hasDJNeighbor col dj_id i
    · simp [h, ih]
    · simp only [h, if_true]
      rw [ih]
      omega

theorem rowLabel_some {r : Row} {spk : String} (h : rowLabel r = some spk) :
    r.typ = "speech" ∧ get_dominant_speaker r.speakers = some spk := by
  by_cases ht : r.typ = "speech"
  · exact ⟨ht, by rwa [rowLabel_speech ht] at h⟩
  · rw [rowLabel, if_neg ht] at h
    cases h

theorem mem_keys_of_labelAt {rows : List Row} {idx : ℕ} {spk : String}
    (h : labelAt rows idx = some spk) :
    spk ∈ (duration_stats rows).map Prod.fst := by
  rw [mem_fst_duration_stats]
  rw [labelAt, dominantColumn, List.getD_eq_get?, List.get?_map] at h
  cases hg : rows.get? idx with
  | none => rw [hg] at h; cases h
  | some r =>
    rw [hg] at h
    simp only [Option.map_some', Option.getD_some] at h
    obtain ⟨ht, _⟩ := rowLabel_some h
    exact ⟨r, List.get?_mem hg, ht, h⟩

theorem hasDJNeighbor_iff (rows : List Row) (dj_id : String) (idx : ℕ) :
    hasDJNeighbor (dominantColumn rows) dj_id idx = true ↔
      ∃ offset ∈ offsets,
        0 ≤ (idx : ℤ) + offset ∧ (idx : ℤ) + offset < (rows.length : ℤ) ∧
          labelAt rows ((idx : ℤ) + offset).toNat = some dj_id := by
  rw [hasDJNeighbor, List.any_eq_true]
  constructor
  · rintro ⟨offset, ho, hb⟩
    simp only [Bool.and_eq_true, decide_eq_true_eq] at hb
    refine ⟨offset, ho, hb.1.1, ?_, hb.2⟩
    have := hb.1.2
    rwa [dominantColumn, List.length_map] at this
  · rintro ⟨offset, ho, h1, h2, h3⟩
    refine ⟨offset, ho, ?_⟩
    simp only [Bool.and_eq_true, decide_eq_true_eq]
    refine ⟨⟨h1, ?_⟩, h3⟩
    rwa [dominantColumn, List.length_map]

/-- C2: for a non-host label the interaction count is exactly the number of
positions carrying a speech segment with that label whose clipped 6-slot
neighbourhood contains the host's label (each qualifying position counts
once, however many host neighbours it has). -/
theorem interaction_count_eq_card (rows : List Row) (dj_id : String) (d : ℚ)
    (spk : String) (hdj : djEntry rows = some (dj_id, d)) (hne : spk ≠ dj_id) :
    getCount (interaction_counts rows dj_id) spk =
      (List.range rows.length).countP (fun p =>
        decide (typeAt rows p = "speech") && decide (labelAt rows p = some spk) &&
          decide (∃ offset ∈ offsets,
            0 ≤ (p : ℤ) + offset ∧ (p : ℤ) + offset < (rows.length : ℤ) ∧
              labelAt rows ((p : ℤ) + offset).toNat = some dj_id)) := by
  by_cases hm : spk ∈ (duration_stats rows).map Prod.fst
  · rw [getCount_interaction, if_pos hm, if_neg hne,
      countInteractions_eq_countP, speaker_indices, List.countP_filter]
    apply List.countP_congr
    intro idx _
    have hb : hasDJNeighbor (dominantColumn rows) dj_id idx =
        decide (∃ offset ∈ offsets,
          0 ≤ (idx : ℤ) + offset ∧ (idx : ℤ) + offset < (rows.length : ℤ) ∧
            labelAt rows ((idx : ℤ) + offset).toNat = some dj_id) := by
      rw [Bool.eq_iff_iff, decide_eq_true_eq]
      exact hasDJNeighbor_iff rows dj_id idx
    rw [hb, Bool.and_comm]
  · rw [getCount_interaction, if_neg hm]
    symm
    rw [List.countP_eq_zero]
    intro p _
    simp only [Bool.and_eq_true, decide_eq_true_eq, not_and]
    intro hands
    exact absurd (mem_keys_of_labelAt hands.2) hm

unseal Rat.add Rat.mul Rat.inv Rat.sub in
/-- C2 witness: the theorem applied to the concrete 10-segment run, counting
the interactions of SPEAKER_01 with the host SPEAKER_00. -/
theorem interaction_count_eq_card_witness :
    getCount (interaction_counts exRows "SPEAKER_00") "SPEAKER_01" =
      (List.range exRows.length).countP (fun p =>
        decide (typeAt exRows p = "speech") &&
          decide (labelAt exRows p = some "SPEAKER_01") &&
          decide (∃ offset ∈ offsets,
            0 ≤ (p : ℤ) + offset ∧ (p : ℤ) + offset < (exRows.length : ℤ) ∧
              labelAt exRows ((p : ℤ) + offset).toNat = some "SPEAKER_00")) :=
  interaction_count_eq_card exRows "SPEAKER_00" 35 "SPEAKER_01" (by decide) (by decide)

/-! ### The guest classifier -/

theorem is_guest_iff (cnt top : ℕ) :
    is_guest cnt top = true ↔
      (FREE_PASS_THRESHOLD ≤ cnt ∨ cutoff_value top ≤ (cnt : ℚ)) := by
  rw [is_guest, Bool.or_eq_true, decide_eq_true_eq, decide_eq_true_eq]

theorem interaction_counts_nodup (rows : List Row) (dj_id : String) :
    ((interaction_counts rows dj_id).map Prod.fst).Nodup := by
  rw [interaction_counts_map_fst]
  exact duration_stats_nodup rows

theorem candidates_sublist (rows : List Row) (dj_id : String) :
    (candidates rows dj_id).Sublist (interaction_counts rows dj_id) :=
  List.filter_sublist _

theorem pair_mem_candidates (rows : List Row) (dj_id spk : String)
    (hmem : spk ∈ (duration_stats rows).map Prod.fst) (hne : spk ≠ dj_id) :
    (spk, getCount (interaction_counts rows dj_id) spk) ∈ candidates rows dj_id := by
  have h1 : spk ∈ (interaction_counts rows dj_id).map Prod.fst := by
    rw [interaction_counts_map_fst]
    exact hmem
  rw [candidates, List.mem_filter]
  exact ⟨getCount_pair_mem _ spk h1, by simpa using hne⟩

/-- C1: a non-host record is classified `GUEST` exactly when its interaction
count reaches the free pass (20) or the cutoff `max(12, top * 0.2)`, where
`top` is the maximal interaction count among the non-host candidates;
otherwise it is classified `AD_SPEAKER`. -/
theorem guest_role_iff_threshold (rows : List Row) (dj_id : String) (d : ℚ) (top : ℕ)
    (hdj : djEntry rows = some (dj_id, d))
    (htop_mem : top ∈ (candidates rows dj_id).map Prod.snd)
    (htop_max : ∀ c ∈ (candidates rows dj_id).map Prod.snd, c ≤ top) :
    ∀ rec ∈ calculate_stats_multi_guest rows, rec.Speaker ≠ dj_id →
      ((rec.Role = "GUEST" ↔
          (FREE_PASS_THRESHOLD ≤ rec.Interaction_Count ∨
            cutoff_value top ≤ (rec.Interaction_Count : ℚ))) ∧
        (rec.Role = "GUEST" ∨ rec.Role = "AD_SPEAKER")) := by
  intro rec hrec hne
  unfold calculate_stats_multi_guest at hrec
  cases hs : sorted_durations rows with
  | nil =>
    rw [hs] at hrec
    cases hrec
  | cons hd tail =>
    rw [hs] at hrec
    have hhd : hd = (dj_id, d) := by
      rw [djEntry, hs] at hdj
      exact Option.some.inj hdj
    subst hhd
    obtain ⟨p, hp, rfl⟩ := List.mem_map.1 hrec
    have hpne : p.1 ≠ dj_id := hne
    have hkeys : p.1 ∈ (duration_stats rows).map Prod.fst := by
      have hpm : p ∈ duration_stats rows := by
        refine (sortDesc_perm (duration_stats rows)).mem_iff.1 ?_
        have hx : sortDesc (duration_stats rows) = (dj_id, d) :: tail := hs
        rw [hx]
        exact hp
      exact List.mem_map.2 ⟨p, hpm, rfl⟩
    have hcand : (p.1, getCount (interaction_counts rows dj_id) p.1) ∈
        candidates rows dj_id :=
      pair_mem_candidates rows dj_id p.1 hkeys hpne
    refine ⟨?_, mkResult_role_cases _ _ _ _ p hpne⟩
    cases hq : candidatesSorted rows dj_id with
    | nil =>
      exfalso
      have hperm := sortDesc_perm (candidates rows dj_id)
      have hq' : sortDesc (candidates rows dj_id) = [] := hq
      rw [hq'] at hperm
      rw [hperm.symm.eq_nil] at hcand
      cases hcand
    | cons q ct =>
      have hqhead : (sortDesc (candidates rows dj_id)).head? = some q := by
        have hq' : sortDesc (candidates rows dj_id) = q :: ct := hq
        rw [hq']
        rfl
      obtain ⟨⟨pre, post, hdec, _⟩, hmax⟩ :=
        sortDesc_head_first_max (candidates rows dj_id) q hqhead
      have hqmem : q ∈ candidates rows dj_id := by
        rw [hdec]
        exact List.mem_append.2 (Or.inr (List.mem_cons_self _ _))
      have hc0 : q.2 = top :=
        le_antisymm (htop_max q.2 (List.mem_map.2 ⟨q, hqmem, rfl⟩))
          (by
            obtain ⟨q', hq', hq'2⟩ := List.mem_map.1 htop_mem
            rw [← hq'2]
            exact hmax q' hq')
      have hgl : guest_list rows dj_id =
          (q :: ct).filterMap (fun r => if is_guest r.2 q.2 then some r.1 else none) := by
        unfold guest_list
        rw [hq]
      rw [mkResult_role_guest_iff _ _ _ _ p hpne]
      show p.1 ∈ guest_list rows dj_id ↔
        (FREE_PASS_THRESHOLD ≤ getCount (interaction_counts rows dj_id) p.1 ∨
          cutoff_value top ≤ ((getCount (interaction_counts rows dj_id) p.1 : ℕ) : ℚ))
      rw [hgl, List.mem_filterMap, ← hc0, ← is_guest_iff]
      constructor
      · rintro ⟨r, hr, hrif⟩
        by_cases hg : is_guest r.2 q.2 = true
        · rw [if_pos hg] at hrif
          have hr1 : r.1 = p.1 := Option.some.inj hrif
          have hrmem : r ∈ candidates rows dj_id := by
            refine (sortDesc_perm (candidates rows dj_id)).mem_iff.1 ?_
            have hq' : sortDesc (candidates rows dj_id) = q :: ct := hq
            rw [hq']
            exact hr
          have hrics : r ∈ interaction_counts rows dj_id :=
            (List.mem_filter.1 hrmem).1
          have hpr : (p.1, r.2) ∈ interaction_counts rows dj_id := by
            rw [← hr1]
            exact hrics
          have hcnt : getCount (interaction_counts rows dj_id) p.1 = r.2 :=
            getCount_eq_of_mem_nodup _ p.1 r.2 (interaction_counts_nodup rows dj_id) hpr
          rwa [hcnt]
        · rw [if_neg hg] at hrif
          cases hrif
      · intro hg
        refine ⟨(p.1, getCount (interaction_counts rows dj_id) p.1), ?_, ?_⟩
        · have hmem' := (sortDesc_perm (candidates rows dj_id)).mem_iff.2 hcand
          have hq' : sortDesc (candidates rows dj_id) = q :: ct := hq
          rwa [hq'] at hmem'
        · rw [if_pos hg]

unseal Rat.add Rat.mul Rat.inv Rat.sub in
/-- C1 witness: the theorem applied to the concrete 10-segment run at the
SPEAKER_01 record (count 2, top 2): both thresholds fail, role AD_SPEAKER. -/
theorem guest_role_iff_threshold_witness :
    (("AD_SPEAKER" = "GUEST") ↔
        (FREE_PASS_THRESHOLD ≤ 2 ∨ cutoff_value 2 ≤ ((2 : ℕ) : ℚ))) ∧
      (("AD_SPEAKER" = "GUEST") ∨ ("AD_SPEAKER" = "AD_SPEAKER")) :=
  guest_role_iff_threshold exRows "SPEAKER_00" 35 2 (by decide) (by decide) (by decide)
    { Speaker := "SPEAKER_01", Role := "AD_SPEAKER", Total_Duration := 2,
      Ratio_to_DJ := 40 / 7, Interaction_Count := 2 } (by decide) (by decide)

/-! ### The end-to-end scenario -/

unseal Rat.add Rat.mul Rat.inv Rat.sub in
/-- C3 counterexample: on the spec's 10-segment scenario the host A
(SPEAKER_00) speaks at 7 positions × 5 s = 35 s, so its record carries total
duration 35, not the 40.00 the claim expects. -/
theorem example_output_counterexample :
    (calculate_stats_multi_guest exRows).head? =
      some { Speaker := "SPEAKER_00", Role := "DJ", Total_Duration := 35,
             Ratio_to_DJ := 100, Interaction_Count := 0 } ∧
      (35 : ℚ) ≠ 40 := by
  decide

unseal Rat.add Rat.mul Rat.inv Rat.sub in
/-- C3 amended: the pipeline selects A (= SPEAKER_00) as host with total
duration 35, counts 2 interactions for B (= SPEAKER_01) and 1 for
C (= SPEAKER_02), classifies both as AD_SPEAKER, and outputs the three
records in duration order with ratios 100%, 40/7 % (≈5.7%) and
20/7 % (≈2.9%). -/
theorem example_pipeline_output :
    djEntry exRows = some ("SPEAKER_00", 35) ∧
      getCount (interaction_counts exRows "SPEAKER_00") "SPEAKER_01" = 2 ∧
      getCount (interaction_counts exRows "SPEAKER_00") "SPEAKER_02" = 1 ∧
      calculate_stats_multi_guest exRows =
        [{ Speaker := "SPEAKER_00", Role := "DJ", Total_Duration := 35,
           Ratio_to_DJ := 100, Interaction_Count := 0 },
         { Speaker := "SPEAKER_01", Role := "AD_SPEAKER", Total_Duration := 2,
           Ratio_to_DJ := 40 / 7, Interaction_Count := 2 },
         { Speaker := "SPEAKER_02", Role := "AD_SPEAKER", Total_Duration := 1,
           Ratio_to_DJ := 20 / 7, Interaction_Count := 1 }] := by
  decide

/-! ### The label extractor -/

theorem matchPatternAt_nil : matchPatternAt [] = none := rfl

/-- The scan of `re.search` returns the match at the first position where one starts. -/
theorem searchSpeaker_first (k : ℕ) :
    ∀ (cs m : List Char),
      (∀ i < k, matchPatternAt (cs.drop i) = none) →
      matchPatternAt (cs.drop k) = some m →
      searchSpeaker cs = some m := by
  induction k with
  | zero =>
    intro cs m _ hk
    rw [List.drop_zero] at hk
    cases cs with
    | nil => rw [matchPatternAt_nil] at hk; cases hk
    | cons c cs' => rw [searchSpeaker, hk]
  | succ k ih =>
    intro cs m h hk
    cases cs with
    | nil =>
      rw [List.drop_nil, matchPatternAt_nil] at hk
      cases hk
    | cons c cs' =>
      have h0 : matchPatternAt (c :: cs') = none := by
        have h0' := h 0 (Nat.succ_pos k)
        rwa [List.drop_zero] at h0'
      rw [searchSpeaker, h0]
      exact ih cs' m
        (fun i hi => by
          have hi' := h (i + 1) (Nat.succ_lt_succ hi)
          rwa [List.drop_succ_cons] at hi')
        (by rwa [List.drop_succ_cons] at hk)

/-- C4 counterexample: `"xSPEAKER_070"` contains `"SPEAKER_07"` amid other
text, but the greedy `\d+` makes the extractor return `"SPEAKER_070"`. -/
theorem extract_speaker07_counterexample :
    ("xSPEAKER_070" = "x" ++ "SPEAKER_07" ++ "0") ∧
      get_dominant_speaker (some "xSPEAKER_070") = some "SPEAKER_070" ∧
      some "SPEAKER_070" ≠ some "SPEAKER_07" := by
  decide

/-- C4 amended: the extractor returns exactly `"SPEAKER_07"` from a field
containing it amid other text, provided no pattern match starts strictly
before the occurrence and the occurrence is not followed by a digit. -/
theorem extract_speaker07_first_match (u v : String)
    (hu : ∀ i < u.data.length,
      matchPatternAt ((u ++ "SPEAKER_07" ++ v).data.drop i) = none)
    (hv : v.data.takeWhile Char.isDigit = []) :
    get_dominant_speaker (some (u ++ "SPEAKER_07" ++ v)) = some "SPEAKER_07" := by
  have hdata : (u ++ "SPEAKER_07" ++ v).data =
      u.data ++ ("SPEAKER_07".data ++ v.data) := by
    rw [String.data_append, String.data_append, List.append_assoc]
  have hmatch : matchPatternAt ((u ++ "SPEAKER_07" ++ v).data.drop u.data.length) =
      some "SPEAKER_07".data := by
    rw [hdata, List.drop_left]
    show matchPatternAt
      ('S' :: 'P' :: 'E' :: 'A' :: 'K' :: 'E' :: 'R' :: '_' :: '0' :: '7' :: v.data) = _
    rw [matchPatternAt]
    have ht : (('0' : Char) :: '7' :: v.data).takeWhile Char.isDigit = ['0', '7'] := by
      rw [List.takeWhile_cons_of_pos (by decide), List.takeWhile_cons_of_pos (by decide), hv]
    rw [ht]
  rw [get_dominant_speaker,
    searchSpeaker_first u.data.length (u ++ "SPEAKER_07" ++ v).data "SPEAKER_07".data
      hu hmatch]
  rfl

/-- C4 witness: the amended extraction theorem at `"x SPEAKER_07 end"`. -/
theorem extract_speaker07_first_match_witness :
    get_dominant_speaker (some ("x " ++ "SPEAKER_07" ++ " end")) = some "SPEAKER_07" :=
  extract_speaker07_first_match "x " " end" (by decide) (by decide)

/-! ### The frame after a call -/

/-- C5 counterexample: the call mutates the frame object — source line 20
assigns the `Dominant_Speaker` column in place — so the frame after the call
differs from the input frame. -/
theorem frame_mutation_counterexample :
    (calculate_stats_call
        { rows := [⟨"speech", some "SPEAKER_00", 3⟩], dominantCol := none }).1 ≠
      { rows := [⟨"speech", some "SPEAKER_00", 3⟩], dominantCol := none } := by
  decide

/-- C5 amended: the original columns (`Type`, `Speakers`, `Duration`) and the
row order are unchanged by the call; the only state change is the added
`Dominant_Speaker` column, whose entry at each position is the extracted
label of the row there. -/
theorem frame_rows_preserved (df : Frame) :
    (calculate_stats_call df).1.rows = df.rows ∧
      ∀ p : ℕ, ((calculate_stats_call df).1.dominantCol.getD []).get? p =
        (df.rows.get? p).map rowLabel := by
  refine ⟨rfl, ?_⟩
  intro p
  show (dominantColumn df.rows).get? p = (df.rows.get? p).map rowLabel
  rw [dominantColumn, List.get?_map]

end Radio
